import Mathlib

/-!
Shallow embedding of the sentence-tree editor (src/src/components/Editor.tsx)
and verification of the specification's claims about it.

JavaScript numbers are modelled as rationals (ℚ); all layout arithmetic in
the source is +, -, *, / and min/max/midpoints, which ℚ represents exactly.
Node ids are natural numbers (the source only creates ids 1, 2, 3, …).
`Option` models optional / possibly-null fields (`pos?: string`,
`projectedParent?: number | null`); no code path distinguishes `undefined`
from `null` for these fields, and ids are never 0, so JS truthiness of
`projectedParent` coincides with `Option.isSome`.
-/

namespace SentenceTrees

/- Batteries marks the arithmetic on `Rat` `@[irreducible]`; restoring the
default reducibility lets `decide`/`rfl` evaluate the embedding on the
concrete editor sessions below. -/
attribute [local semireducible] Rat.mul Rat.add Rat.sub Rat.inv Rat.ofScientific

/-- Editor.tsx lines 9-17: `TreeNodeType`. -/
structure TreeNodeType where
  id : Nat
  label : String
  x : ℚ
  y : ℚ
  isLeaf : Bool
  pos : Option String := none
  projectedParent : Option Nat := none
deriving DecidableEq, Repr

/-- Editor.tsx lines 19-22: `EdgeControlPoint`. -/
structure EdgeControlPoint where
  x : ℚ
  y : ℚ
deriving DecidableEq, Repr

/-- Editor.tsx lines 24-29: `EdgeType`. `from` is a Lean keyword, so the
endpoint fields are named `fromId` / `toId`. -/
structure EdgeType where
  id : String
  fromId : Nat
  toId : Nat
  controlPoint : Option EdgeControlPoint := none
deriving DecidableEq, Repr

/-- Editor.tsx lines 30-38: `TreeState`. -/
structure TreeState where
  sentence : String
  nodes : List TreeNodeType
  edges : List EdgeType
  nextId : Nat
  selected : List Nat
  error : String
  linking : Option Nat
deriving DecidableEq, Repr

/-- Viewport dimensions (Editor.tsx line 257 initialises them to 600×400). -/
structure Dims where
  width : ℚ
  height : ℚ
deriving DecidableEq, Repr

/-- Editor.tsx line 40. -/
def PROJECTING_POS : List (String × String) :=
  [("N", "NP"), ("V", "VP"), ("A", "AP"), ("P", "PP"), ("Adv", "AdvP")]

/-- Editor.tsx line 41. -/
def NON_PROJECTING_POS : List String := ["aux", "Det", "PNP"]

/-- JS `PROJECTING_POS[pos]` (Editor.tsx lines 401-404): the phrasal label
when `pos` is a projecting category, `none` otherwise (JS yields the falsy
`undefined` for missing keys and for an absent `pos`). -/
def projectsTo (pos : Option String) : Option String :=
  match pos with
  | none => none
  | some p => (PROJECTING_POS.find? (fun q => q.1 = p)).map (fun q => q.2)

/-- JS `Math.min(...l)` as a left fold, for the nonempty lists this code
applies it to. On `[]` JS returns `Infinity`; the model returns `0` there,
and no theorem below depends on that case. -/
def minQ : List ℚ → ℚ
  | [] => 0
  | x :: xs => xs.foldl min x

/-- JS `Math.max(...l)`; see `minQ`. -/
def maxQ : List ℚ → ℚ
  | [] => 0
  | x :: xs => xs.foldl max x

/-- Editor.tsx lines 248-256: the initial editor state. -/
def initialState : TreeState :=
  { sentence := "", nodes := [], edges := [], nextId := 1, selected := [],
    error := "", linking := none }

/-- Editor.tsx line 480: typing in the sentence input replaces `sentence`. -/
def setSentence (str : String) (prev : TreeState) : TreeState :=
  { prev with sentence := str }

/-- Accumulator pass behind `tokenize`: collects the maximal runs of
non-whitespace characters, in order. -/
def tokensAux : List Char → List Char → List (List Char)
  | [], acc => if acc = [] then [] else [acc.reverse]
  | c :: rest, acc =>
    if c.isWhitespace then
      if acc = [] then tokensAux rest [] else acc.reverse :: tokensAux rest []
    else tokensAux rest (c :: acc)

/-- Editor.tsx line 355: `state.sentence.trim().split(/\s+/)`. On a string
with at least one non-whitespace character this JS expression yields exactly
the maximal runs of non-whitespace characters, in order, which is what this
computes (structurally, over the character list). -/
def tokenize (sentence : String) : List String :=
  (tokensAux sentence.data []).map (fun t => String.mk t)

/-- JS `!state.sentence.trim()` (Editor.tsx line 351): true exactly when the
sentence consists solely of whitespace (or is empty). -/
def isBlank (sentence : String) : Bool :=
  sentence.data.all (fun c => c.isWhitespace)

/-- Editor.tsx lines 350-385: `initializeNodes`. -/
def initializeNodes (dims : Dims) (state : TreeState) : TreeState :=
  if isBlank state.sentence then
    { state with error := "Please enter a sentence first" }
  else
    let words := tokenize state.sentence
    let spacing := dims.width / (words.length + 1)
    { state with
      nodes :=
        words.enum.map (fun p =>
          { id := p.1 + 1, label := p.2, pos := some "",
            x := spacing * (p.1 + 1), y := dims.height * 0.875,
            isLeaf := true, projectedParent := none }) ++
        [{ id := words.length + 1, label := "S",
           x := dims.width / 2, y := dims.height * 0.125, isLeaf := false }],
      nextId := words.length + 2,
      selected := [],
      edges := [],
      error := "" }

/-- Editor.tsx lines 287-288 (`getChildren` inside `updatePositions`): the
children of `id`, read from the pre-pass state. The JS non-null assertion on
the node lookup would crash on a dangling edge; the model drops such edges
(`filterMap`), which agrees with JS whenever every edge endpoint exists. -/
def getChildren (state : TreeState) (id : Nat) : List TreeNodeType :=
  (state.edges.filter (fun e => e.fromId = id)).filterMap
    (fun e => state.nodes.find? (fun n => n.id = e.toId))

/-- Editor.tsx lines 289-290 (`getParent`): the source node of the first edge
into `id`, when that node exists (JS `?.from` turns a missing edge into
`undefined`, which matches no node id). -/
def getParent (state : TreeState) (id : Nat) : Option TreeNodeType :=
  match state.edges.find? (fun e => e.toId = id) with
  | none => none
  | some e => state.nodes.find? (fun n => n.id = e.fromId)

/-- Editor.tsx lines 313-339: the function `updatePositions` maps over the
node list, hoisted to a named definition. All reads (`getChildren`,
`getParent`, the leaf list, the `highestY` scan) are taken from the pre-pass
state, exactly as in the source, where they close over the same render's
`state`/`prev`. JS `Math.min(TOP_Y, Infinity - gap)` for a root with no
other nodes is `TOP_Y`, which the empty-list branch reproduces. -/
def positionNode (dims : Dims) (state : TreeState) (node : TreeNodeType) :
    TreeNodeType :=
  let VERTICAL_GAP := dims.height * 0.1
  let TOP_Y := dims.height * 0.1
  let BOTTOM_Y := dims.height * 0.8
  let ROOT_X := dims.width / 2
  let nodes := state.nodes
  let children := getChildren state node.id
  let parent := getParent state node.id
  if node.isLeaf then
    let leafNodes := nodes.filter (fun n => n.isLeaf)
    let index := leafNodes.findIdx (fun n => n.id = node.id)
    let spacing := dims.width / (leafNodes.length + 1)
    { node with x := spacing * (index + 1), y := BOTTOM_Y }
  else if node.label = "S" ∧ parent = none then
    let otherYs := (nodes.filter (fun n => n.id ≠ node.id)).map (fun n => n.y)
    { node with
      x := ROOT_X,
      y := if otherYs = [] then TOP_Y
           else min TOP_Y (minQ otherYs - VERTICAL_GAP) }
  else if children ≠ [] then
    { node with
      x := (minQ (children.map (fun n => n.x)) +
            maxQ (children.map (fun n => n.x))) / 2,
      y := minQ (children.map (fun n => n.y)) - VERTICAL_GAP }
  else node

/-- Editor.tsx lines 286-343: `updatePositions`, as the pure state
transformer the layout effect applies. Lines 293-303 (`calculateDepth`,
`rootNode`, `treeDepth`) compute a value the position formulas never use, so
they are omitted. -/
def updatePositions (dims : Dims) (state : TreeState) : TreeState :=
  { state with nodes := state.nodes.map (positionNode dims state) }

/-- Editor.tsx lines 387-428: `handleNodeUpdate`. When no node carries the
updated id, the JS would dereference `undefined` (the `!` on line 390); the
model returns the state unchanged, and the UI only ever passes ids of
rendered nodes. Line 416 mutates the incoming object (`updatedNode.
projectedParent = prev.nextId`); the model builds `updated2` instead and
uses it in the final per-id replacement, exactly as the mutated object is
used there. -/
def handleNodeUpdate (updatedNode : TreeNodeType) (prev : TreeState) : TreeState :=
  match prev.nodes.find? (fun n => n.id = updatedNode.id) with
  | none => prev
  | some oldNode =>
    if updatedNode.isLeaf = true ∧ oldNode.pos ≠ updatedNode.pos then
      let nodes1 := match oldNode.projectedParent with
        | some p => prev.nodes.filter (fun n => n.id ≠ p)
        | none => prev.nodes
      let edges1 := match oldNode.projectedParent with
        | some p => prev.edges.filter (fun e => e.fromId ≠ p)
        | none => prev.edges
      match projectsTo updatedNode.pos with
      | some plabel =>
        let projected : TreeNodeType :=
          { id := prev.nextId, label := plabel,
            x := updatedNode.x, y := updatedNode.y - 60, isLeaf := false }
        let updated2 := { updatedNode with projectedParent := some prev.nextId }
        { prev with
          nodes := (nodes1 ++ [projected]).map
            (fun n => if n.id = updated2.id then updated2 else n),
          edges := edges1 ++
            [{ id := toString prev.nextId ++ "-" ++ toString updatedNode.id,
               fromId := prev.nextId, toId := updatedNode.id }],
          nextId := prev.nextId + 1 }
      | none =>
        { prev with
          nodes := nodes1.map
            (fun n => if n.id = updatedNode.id then updatedNode else n),
          edges := edges1 }
    else
      { prev with
        nodes := prev.nodes.map
          (fun n => if n.id = updatedNode.id then updatedNode else n) }

/-- Editor.tsx lines 430-446: `handleLink`. -/
def handleLink (fromId : Nat) (state : TreeState) : TreeState :=
  if state.linking = some fromId then
    { state with linking := none }
  else
    match state.linking with
    | some l =>
      { state with
        edges := state.edges ++
          [{ id := toString l ++ "-" ++ toString fromId,
             fromId := l, toId := fromId }],
        linking := none }
    | none => { state with linking := some fromId }

/-- Editor.tsx lines 448-468: `addParent`. On an empty `selectedNodes` list
(a stale selection) JS computes `Infinity`/`NaN` coordinates; `minQ`/`maxQ`
return 0 there, and no theorem below constrains coordinates in that case. -/
def addParent (state : TreeState) : TreeState :=
  if state.selected.length < 2 then
    { state with error := "Select at least 2 nodes to create a parent" }
  else
    let selectedNodes := state.nodes.filter (fun n => n.id ∈ state.selected)
    let x := (minQ (selectedNodes.map (fun n => n.x)) +
              maxQ (selectedNodes.map (fun n => n.x))) / 2
    let y := minQ (selectedNodes.map (fun n => n.y)) - 60
    { state with
      nodes := state.nodes ++
        [{ id := state.nextId, label := "New", x := x, y := y, isLeaf := false }],
      edges := state.edges ++ selectedNodes.map (fun child =>
        { id := toString state.nextId ++ "-" ++ toString child.id,
          fromId := state.nextId, toId := child.id }),
      nextId := state.nextId + 1,
      selected := [] }

/-- Editor.tsx lines 519-524: clicking a node (while not linking) toggles it
into / out of the selection set. -/
def toggleSelect (nid : Nat) (prev : TreeState) : TreeState :=
  { prev with
    selected := if nid ∈ prev.selected
      then prev.selected.filter (fun i => i ≠ nid)
      else prev.selected ++ [nid] }

/-- Editor.tsx lines 501-504: the edge delete button filters by edge id. -/
def deleteEdge (edgeId : String) (prev : TreeState) : TreeState :=
  { prev with edges := prev.edges.filter (fun e => e.id ≠ edgeId) }

/-- Editor.tsx lines 505-508: replacing an edge (control-point drag). -/
def updateEdge (updatedEdge : EdgeType) (prev : TreeState) : TreeState :=
  { prev with
    edges := prev.edges.map (fun e => if e.id = updatedEdge.id then updatedEdge else e) }

/-- The states reachable through the editor's event handlers from the
initial state: sentence typing, Create Leaf Nodes, node updates (label
edits, POS changes, drags), the link handles, Add Parent, node selection,
edge deletion, control-point drags, and the layout effect.
`handleNodeUpdate` and `updateEdge` admit arbitrary arguments, which covers
every object the UI can pass. -/
inductive Reachable : TreeState → Prop
  | init : Reachable initialState
  | typeSentence (str : String) {s : TreeState} :
      Reachable s → Reachable (setSentence str s)
  | createLeaves (d : Dims) {s : TreeState} :
      Reachable s → Reachable (initializeNodes d s)
  | nodeUpdate (u : TreeNodeType) {s : TreeState} :
      Reachable s → Reachable (handleNodeUpdate u s)
  | link (i : Nat) {s : TreeState} :
      Reachable s → Reachable (handleLink i s)
  | parent {s : TreeState} :
      Reachable s → Reachable (addParent s)
  | select (i : Nat) {s : TreeState} :
      Reachable s → Reachable (toggleSelect i s)
  | delEdge (eid : String) {s : TreeState} :
      Reachable s → Reachable (deleteEdge eid s)
  | layout (d : Dims) {s : TreeState} :
      Reachable s → Reachable (updatePositions d s)
  | edgeUpdate (e : EdgeType) {s : TreeState} :
      Reachable s → Reachable (updateEdge e s)

/-! ## Concrete editor sessions used as test inputs -/

/-- The initial 600×400 viewport (Editor.tsx line 257). -/
def d0 : Dims := { width := 600, height := 400 }

/-- Type "a b" and press Create Leaf Nodes: leaves 1 ("a") and 2 ("b"),
root 3 ("S"), `nextId = 4`. -/
def exInit2 : TreeState := initializeNodes d0 (setSentence "a b" initialState)

/-- Leaf 1 of `exInit2`, as the UI holds it. -/
def exLeaf1 : TreeNodeType :=
  { id := 1, label := "a", x := 200, y := 350, isLeaf := true,
    pos := some "", projectedParent := none }

/-- Tag leaf 1 with "N": auto-projects node 4 ("NP") and edge "4-1". -/
def exTagged : TreeState := handleNodeUpdate { exLeaf1 with pos := some "N" } exInit2

/-- Leaf 1 of `exTagged` (now tagged "N", projected parent 4). -/
def exLeaf1N : TreeNodeType := { exLeaf1 with pos := some "N", projectedParent := some 4 }

/-- From `exTagged`, click the link handle of root 3 and then of node 4:
the user edge "3-4" (S above NP) is added. -/
def exLinked : TreeState := handleLink 4 (handleLink 3 exTagged)

/-- From `exLinked`, retag leaf 1 to the non-projecting "aux": node 4 is
removed together with the edges out of it, but not the edge "3-4" into it. -/
def exC3state : TreeState := handleNodeUpdate { exLeaf1N with pos := some "aux" } exLinked

/-- Type "a" and press Create Leaf Nodes: leaf 1 ("a"), root 2 ("S"). -/
def exInit1 : TreeState := initializeNodes d0 (setSentence "a" initialState)

/-- Leaf 1 of `exInit1`. -/
def exLeafA : TreeNodeType :=
  { id := 1, label := "a", x := 300, y := 350, isLeaf := true,
    pos := some "", projectedParent := none }

/-- From `exInit1`, drag leaf 1 down to y = 500, then tag it "N": node 3
("NP") appears with edge "3-1". -/
def exDragTag : TreeState :=
  handleNodeUpdate { exLeafA with y := 500, pos := some "N" }
    (handleNodeUpdate { exLeafA with y := 500 } exInit1)

/-- From `exTagged`, link node 4 ("NP") to leaf 2: the user edge "4-2" is
added, so node 4 now has two outgoing edges. -/
def exLinked2 : TreeState := handleLink 2 (handleLink 4 exTagged)

/-- From `exLinked2`, retag leaf 1 to "aux". -/
def exC2state : TreeState := handleNodeUpdate { exLeaf1N with pos := some "aux" } exLinked2

/-- From `exInit1`, link root 2 to leaf 1 twice: two edges, both id "2-1". -/
def exDup : TreeState := handleLink 1 (handleLink 2 (handleLink 1 (handleLink 2 exInit1)))

/-- From `exTagged`, select nodes 4 and 2, then retag leaf 1 to "aux":
node 4 disappears but its id stays in the selection set. -/
def exStale : TreeState :=
  handleNodeUpdate { exLeaf1N with pos := some "aux" } (toggleSelect 2 (toggleSelect 4 exTagged))

/-! ## C6: initializing with an empty or whitespace-only sentence -/

/-- C6: initializing with an empty or whitespace-only sentence sets the
error message and leaves the node and edge collections unchanged. -/
theorem C6_initialize_empty_error (d : Dims) (s : TreeState)
    (h : isBlank s.sentence = true) :
    (initializeNodes d s).nodes = s.nodes ∧
    (initializeNodes d s).edges = s.edges ∧
    (initializeNodes d s).error = "Please enter a sentence first" := by
  simp [initializeNodes, h]

/-- C6 witness: initializing after typing a whitespace-only sentence. -/
theorem C6_initialize_empty_error_witness :
    (initializeNodes d0 (setSentence "  " initialState)).nodes
        = (setSentence "  " initialState).nodes ∧
    (initializeNodes d0 (setSentence "  " initialState)).edges
        = (setSentence "  " initialState).edges ∧
    (initializeNodes d0 (setSentence "  " initialState)).error
        = "Please enter a sentence first" :=
  C6_initialize_empty_error d0 (setSentence "  " initialState) (by decide)

/-! ## C5: initializing from a nonempty sentence -/

/-- The leaf nodes produced from the indexed token list keep `isLeaf = true`,
so filtering them back out is the identity. -/
theorem filter_isLeaf_of_mk (l : List (Nat × String))
    (g : Nat × String → TreeNodeType) (hg : ∀ p, (g p).isLeaf = true) :
    (l.map g).filter (fun n => n.isLeaf) = l.map g := by
  induction l with
  | nil => rfl
  | cons a t ih => simp [hg, ih]

/-- Dual of `filter_isLeaf_of_mk` for the non-leaf filter. -/
theorem filter_not_isLeaf_of_mk (l : List (Nat × String))
    (g : Nat × String → TreeNodeType) (hg : ∀ p, (g p).isLeaf = true) :
    (l.map g).filter (fun n => !n.isLeaf) = [] := by
  induction l with
  | nil => rfl
  | cons a t ih => simp [hg, ih]

/-- C5: initializing from a sentence with at least one non-whitespace
character produces one leaf per token, in token order (labels and ids read
off the token list), plus exactly one non-leaf root labeled "S", and resets
edges and selection. -/
theorem C5_initialize_tokens (d : Dims) (s : TreeState)
    (h : isBlank s.sentence = false) :
    ((initializeNodes d s).nodes.filter (fun n => n.isLeaf)).map (fun n => n.label)
        = tokenize s.sentence ∧
    ((initializeNodes d s).nodes.filter (fun n => n.isLeaf)).map (fun n => n.id)
        = (List.range (tokenize s.sentence).length).map (fun i => i + 1) ∧
    (initializeNodes d s).nodes.filter (fun n => !n.isLeaf)
        = [{ id := (tokenize s.sentence).length + 1, label := "S",
             x := d.width / 2, y := d.height * 0.125, isLeaf := false }] ∧
    (initializeNodes d s).nodes.length = (tokenize s.sentence).length + 1 ∧
    (initializeNodes d s).edges = [] ∧
    (initializeNodes d s).selected = [] := by
  have hfl := filter_isLeaf_of_mk ((tokenize s.sentence).enum)
    (fun p => { id := p.1 + 1, label := p.2, pos := some "",
                x := d.width / ((tokenize s.sentence).length + 1) * (p.1 + 1),
                y := d.height * 0.875, isLeaf := true, projectedParent := none })
    (fun p => rfl)
  have hnl := filter_not_isLeaf_of_mk ((tokenize s.sentence).enum)
    (fun p => { id := p.1 + 1, label := p.2, pos := some "",
                x := d.width / ((tokenize s.sentence).length + 1) * (p.1 + 1),
                y := d.height * 0.875, isLeaf := true, projectedParent := none })
    (fun p => rfl)
  refine ⟨?_, ?_, ?_, ?_, ?_, ?_⟩ <;>
    simp [initializeNodes, h, List.filter_append, hfl, hnl, List.map_map,
      List.enum_length]
  · exact List.enum_map_snd (tokenize s.sentence)
  · rw [← List.enum_map_fst (tokenize s.sentence), List.map_map]
    rfl

/-- C5 witness: "the cat sleeps" yields exactly 3 leaves (labels in token
order) plus the single root "S". -/
theorem C5_initialize_tokens_witness :
    tokenize (setSentence "the cat sleeps" initialState).sentence
        = ["the", "cat", "sleeps"] ∧
    (((initializeNodes d0 (setSentence "the cat sleeps" initialState)).nodes.filter
        (fun n => n.isLeaf)).map (fun n => n.label)
      = tokenize (setSentence "the cat sleeps" initialState).sentence ∧
    ((initializeNodes d0 (setSentence "the cat sleeps" initialState)).nodes.filter
        (fun n => n.isLeaf)).map (fun n => n.id)
      = (List.range (tokenize (setSentence "the cat sleeps" initialState).sentence).length).map
          (fun i => i + 1) ∧
    (initializeNodes d0 (setSentence "the cat sleeps" initialState)).nodes.filter
        (fun n => !n.isLeaf)
      = [{ id := (tokenize (setSentence "the cat sleeps" initialState).sentence).length + 1,
           label := "S", x := d0.width / 2, y := d0.height * 0.125, isLeaf := false }] ∧
    (initializeNodes d0 (setSentence "the cat sleeps" initialState)).nodes.length
      = (tokenize (setSentence "the cat sleeps" initialState).sentence).length + 1 ∧
    (initializeNodes d0 (setSentence "the cat sleeps" initialState)).edges = [] ∧
    (initializeNodes d0 (setSentence "the cat sleeps" initialState)).selected = []) :=
  ⟨by decide,
   C5_initialize_tokens d0 (setSentence "the cat sleeps" initialState) (by decide)⟩

/-! ## C7: the linking state machine -/

/-- C7: clicking a node's link handle while idle enters linking with that
node pending; clicking the pending node's own handle again returns to idle
without adding any edge; clicking a different node's handle while one is
pending appends exactly one edge from the pending node to the clicked node
and returns to idle. -/
theorem C7_linking_state_machine (s : TreeState) (a b : Nat) :
    (s.linking = none → handleLink a s = { s with linking := some a }) ∧
    (s.linking = some a → handleLink a s = { s with linking := none }) ∧
    (s.linking = some a → b ≠ a →
      handleLink b s = { s with
        edges := s.edges ++
          [{ id := toString a ++ "-" ++ toString b, fromId := a, toId := b }],
        linking := none }) := by
  refine ⟨fun h => ?_, fun h => ?_, fun h hba => ?_⟩
  · simp [handleLink, h]
  · simp [handleLink, h]
  · have hne : ¬ s.linking = some b := by
      rw [h]
      exact fun hc => hba (Option.some.inj hc).symm
    simp [handleLink, hne, h]
    exact fun hab => hba hab.symm

/-- C7 witness: in `exInit2`, link-click node 3 (enters linking), then
either node 3 again (cancel) or node 4 (creates exactly the edge 3→4). -/
theorem C7_linking_state_machine_witness :
    (handleLink 3 exInit2 = { exInit2 with linking := some 3 }) ∧
    (handleLink 3 (handleLink 3 exInit2)
        = { handleLink 3 exInit2 with linking := none }) ∧
    (handleLink 4 (handleLink 3 exInit2)
        = { handleLink 3 exInit2 with
            edges := (handleLink 3 exInit2).edges ++
              [{ id := toString 3 ++ "-" ++ toString 4, fromId := 3, toId := 4 }],
            linking := none }) :=
  ⟨(C7_linking_state_machine exInit2 3 4).1 (by decide),
   (C7_linking_state_machine (handleLink 3 exInit2) 3 4).2.1 (by decide),
   (C7_linking_state_machine (handleLink 3 exInit2) 3 4).2.2 (by decide) (by decide)⟩

/-! ## C9: deleting an edge -/

/-- Filtering out one id from an edge list whose ids are pairwise distinct
removes exactly the first (only) edge carrying it. -/
theorem filter_ne_id_eq_erase (l : List EdgeType)
    (hn : (l.map (fun e => e.id)).Nodup) (e : EdgeType) (he : e ∈ l) :
    l.filter (fun x => x.id ≠ e.id) = l.erase e := by
  induction l with
  | nil => cases he
  | cons a t ih =>
    rw [List.map_cons, List.nodup_cons] at hn
    rcases List.mem_cons.mp he with rfl | het
    · have hall : ∀ x ∈ t, x.id ≠ e.id := by
        intro x hx hxe
        exact hn.1 (hxe ▸ List.mem_map_of_mem (fun y => y.id) hx)
      rw [List.erase_cons_head]
      simp only [List.filter_cons, decide_eq_true_eq]
      rw [if_neg (by simp)]
      exact List.filter_eq_self.mpr (fun x hx => by simpa using hall x hx)
    · have hane : a.id ≠ e.id := by
        intro hae
        exact hn.1 (hae ▸ List.mem_map_of_mem (fun y => y.id) het)
      have haee : a ≠ e := fun hae => hane (hae ▸ rfl)
      rw [List.erase_cons_tail (by simpa using haee)]
      simp only [List.filter_cons, decide_eq_true_eq]
      rw [if_pos hane]
      rw [ih hn.2 het]

/-- C9 (amended): the delete button removes every edge whose id equals the
clicked edge's id and leaves the node collection untouched; since edge ids
are derived from the endpoint pair, duplicate edges between the same pair
are removed together, and when the edge ids are pairwise distinct exactly
the clicked edge disappears. -/
theorem C9_delete_edge (s : TreeState) (eid : String) :
    (deleteEdge eid s).nodes = s.nodes ∧
    (deleteEdge eid s).edges = s.edges.filter (fun e => e.id ≠ eid) ∧
    ((s.edges.map (fun e => e.id)).Nodup → ∀ e ∈ s.edges, e.id = eid →
      (deleteEdge eid s).edges = s.edges.erase e) := by
  refine ⟨rfl, rfl, fun hn e he heid => ?_⟩
  show s.edges.filter (fun x => x.id ≠ eid) = s.edges.erase e
  rw [← heid]
  exact filter_ne_id_eq_erase s.edges hn e he

/-- C9 witness: in `exLinked` (edges "4-1" and "3-4", distinct ids),
deleting "4-1" removes exactly that edge and keeps all nodes. -/
theorem C9_delete_edge_witness :
    ((deleteEdge "4-1" exLinked).nodes = exLinked.nodes ∧
      (deleteEdge "4-1" exLinked).edges
        = exLinked.edges.filter (fun e => e.id ≠ "4-1")) ∧
    (deleteEdge "4-1" exLinked).edges
      = exLinked.edges.erase { id := "4-1", fromId := 4, toId := 1 } :=
  ⟨⟨(C9_delete_edge exLinked "4-1").1, (C9_delete_edge exLinked "4-1").2.1⟩,
   (C9_delete_edge exLinked "4-1").2.2 (by decide)
     { id := "4-1", fromId := 4, toId := 1 } (by decide) (by decide)⟩

/-! ## C4: add parent -/

/-- When node ids are pairwise distinct and every selected id is the id of
some node, filtering the nodes down to the selection yields exactly one node
per selected id. -/
theorem length_filter_selected (nodes : List TreeNodeType) (sel : List Nat)
    (hn : (nodes.map (fun n => n.id)).Nodup) (hs : sel.Nodup)
    (hc : ∀ i ∈ sel, ∃ n ∈ nodes, n.id = i) :
    (nodes.filter (fun n => n.id ∈ sel)).length = sel.length := by
  have hsub : ((nodes.filter (fun n => n.id ∈ sel)).map (fun n => n.id)).Sublist
      (nodes.map (fun n => n.id)) :=
    (List.filter_sublist nodes).map (fun n => n.id)
  have hnd : ((nodes.filter (fun n => n.id ∈ sel)).map (fun n => n.id)).Nodup :=
    hsub.nodup hn
  have hmem : ∀ x, x ∈ (nodes.filter (fun n => n.id ∈ sel)).map (fun n => n.id) ↔ x ∈ sel := by
    intro x
    constructor
    · intro hx
      rcases List.mem_map.mp hx with ⟨n, hnf, rfl⟩
      simpa using (List.mem_filter.mp hnf).2
    · intro hx
      rcases hc x hx with ⟨n, hnn, rfl⟩
      exact List.mem_map_of_mem _ (List.mem_filter.mpr ⟨hnn, by simpa using hx⟩)
  have htf : ((nodes.filter (fun n => n.id ∈ sel)).map (fun n => n.id)).toFinset
      = sel.toFinset := by
    ext x
    simp only [List.mem_toFinset]
    exact hmem x
  calc (nodes.filter (fun n => n.id ∈ sel)).length
      = ((nodes.filter (fun n => n.id ∈ sel)).map (fun n => n.id)).length :=
        (List.length_map _ _).symm
    _ = ((nodes.filter (fun n => n.id ∈ sel)).map (fun n => n.id)).toFinset.card :=
        (List.toFinset_card_of_nodup hnd).symm
    _ = sel.toFinset.card := by rw [htf]
    _ = sel.length := List.toFinset_card_of_nodup hs

/-- C4 (amended): with fewer than 2 selected ids, add-parent only sets the
error; with at least 2 selected ids it appends exactly one new non-leaf node
and one new edge per node currently present whose id is selected, and clears
the selection — which is exactly one edge per selected id whenever the
selection is duplicate-free and every selected id is still present. -/
theorem C4_add_parent (s : TreeState) :
    (s.selected.length < 2 →
      addParent s = { s with error := "Select at least 2 nodes to create a parent" }) ∧
    (2 ≤ s.selected.length →
      (addParent s).nodes = s.nodes ++
        [{ id := s.nextId, label := "New",
           x := (minQ ((s.nodes.filter (fun n => n.id ∈ s.selected)).map (fun n => n.x)) +
                 maxQ ((s.nodes.filter (fun n => n.id ∈ s.selected)).map (fun n => n.x))) / 2,
           y := minQ ((s.nodes.filter (fun n => n.id ∈ s.selected)).map (fun n => n.y)) - 60,
           isLeaf := false }] ∧
      (addParent s).edges = s.edges ++
        (s.nodes.filter (fun n => n.id ∈ s.selected)).map (fun child =>
          { id := toString s.nextId ++ "-" ++ toString child.id,
            fromId := s.nextId, toId := child.id }) ∧
      (addParent s).selected = [] ∧
      (addParent s).nextId = s.nextId + 1) ∧
    (2 ≤ s.selected.length → s.selected.Nodup →
      (s.nodes.map (fun n => n.id)).Nodup →
      (∀ i ∈ s.selected, ∃ n ∈ s.nodes, n.id = i) →
      (addParent s).edges.length = s.edges.length + s.selected.length) := by
  refine ⟨fun h => ?_, fun h => ?_, fun h hs hn hc => ?_⟩
  · simp [addParent, h]
  · have hlt : ¬ s.selected.length < 2 := by omega
    exact ⟨by simp [addParent, hlt], by simp [addParent, hlt], by simp [addParent, hlt],
      by simp [addParent, hlt]⟩
  · have hlt : ¬ s.selected.length < 2 := by omega
    simp only [addParent, hlt, if_false, List.length_append, List.length_map]
    rw [length_filter_selected s.nodes s.selected hn hs hc]

/-- C4 witness: the guard at an empty selection, and the counted behaviour
after selecting the two leaves of `exInit2` (two edges are added). -/
theorem C4_add_parent_witness :
    (addParent exInit2
      = { exInit2 with error := "Select at least 2 nodes to create a parent" }) ∧
    (addParent (toggleSelect 2 (toggleSelect 1 exInit2))).edges.length
      = (toggleSelect 2 (toggleSelect 1 exInit2)).edges.length
        + (toggleSelect 2 (toggleSelect 1 exInit2)).selected.length :=
  ⟨(C4_add_parent exInit2).1 (by decide),
   (C4_add_parent (toggleSelect 2 (toggleSelect 1 exInit2))).2.2 (by decide) (by decide)
     (by decide) (by decide)⟩

/-! ## C10: node ids are distinct and below nextId in every reachable state -/

/-- Replacing the node carrying `uid` by another node with the same id
leaves the id list unchanged. -/
theorem ids_map_replace (l : List TreeNodeType) (uid : Nat) (u2 : TreeNodeType)
    (hu : u2.id = uid) :
    (l.map (fun n => if n.id = uid then u2 else n)).map (fun n => n.id)
      = l.map (fun n => n.id) := by
  rw [List.map_map]
  exact List.map_congr_left (fun n hn => by by_cases hc : n.id = uid <;> simp [hc, hu])

/-- `handleLink` never touches the node list or the id counter. -/
theorem handleLink_frame (i : Nat) (s : TreeState) :
    (handleLink i s).nodes = s.nodes ∧ (handleLink i s).nextId = s.nextId := by
  cases hl : s.linking with
  | none => simp [handleLink, hl]
  | some l => by_cases hi : l = i <;> simp [handleLink, hl, hi]

/-- The layout pass only rewrites coordinates: the id list and the id
counter are unchanged. -/
theorem updatePositions_frame (d : Dims) (s : TreeState) :
    ((updatePositions d s).nodes.map (fun n => n.id)) = s.nodes.map (fun n => n.id) ∧
    (updatePositions d s).nextId = s.nextId := by
  constructor
  · simp only [updatePositions, List.map_map]
    refine List.map_congr_left (fun n hn => ?_)
    by_cases h1 : n.isLeaf
    · simp [positionNode, h1]
    · by_cases h2 : n.label = "S" ∧ getParent s n.id = none
      · simp [positionNode, h1, h2]
      · by_cases h3 : getChildren s n.id = [] <;> simp [positionNode, h1, h2, h3]
  · rfl

/-- Structural shape of `handleNodeUpdate`: it is the identity (unknown id),
or a per-id replacement over a sub-collection of the old nodes keeping
`nextId`, or such a replacement with one appended node carrying the fresh id
`nextId` and `nextId` bumped by one. -/
theorem handleNodeUpdate_shape (u : TreeNodeType) (s : TreeState) :
    handleNodeUpdate u s = s ∨
    (∃ (u2 : TreeNodeType) (nodes1 : List TreeNodeType),
      u2.id = u.id ∧ u.id ∈ s.nodes.map (fun n => n.id) ∧
      (nodes1.map (fun n => n.id)).Sublist (s.nodes.map (fun n => n.id)) ∧
      (handleNodeUpdate u s).nodes
        = nodes1.map (fun n => if n.id = u.id then u2 else n) ∧
      (handleNodeUpdate u s).nextId = s.nextId) ∨
    (∃ (u2 proj : TreeNodeType) (nodes1 : List TreeNodeType),
      u2.id = u.id ∧ proj.id = s.nextId ∧
      u.id ∈ s.nodes.map (fun n => n.id) ∧
      (nodes1.map (fun n => n.id)).Sublist (s.nodes.map (fun n => n.id)) ∧
      (handleNodeUpdate u s).nodes
        = (nodes1 ++ [proj]).map (fun n => if n.id = u.id then u2 else n) ∧
      (handleNodeUpdate u s).nextId = s.nextId + 1) := by
  cases hf : s.nodes.find? (fun n => n.id = u.id) with
  | none =>
    left
    simp [handleNodeUpdate, hf]
  | some old =>
    have hid : old.id = u.id := by simpa using List.find?_some hf
    have hold : old ∈ s.nodes := List.mem_of_find?_eq_some hf
    have humem : u.id ∈ s.nodes.map (fun n => n.id) :=
      hid ▸ List.mem_map_of_mem (fun n => n.id) hold
    by_cases hcond : u.isLeaf = true ∧ old.pos ≠ u.pos
    · have hc1 := hcond.1
      have hc2 := hcond.2
      cases hpj : projectsTo u.pos with
      | none =>
        right; left
        cases hpp : old.projectedParent with
        | none =>
          refine ⟨u, s.nodes, rfl, humem, List.Sublist.refl _, ?_, ?_⟩ <;>
            simp only [handleNodeUpdate, hf, hc1, hc2, hpp, hpj,
              ne_eq, not_false_eq_true, and_self, if_true]
        | some p =>
          refine ⟨u, s.nodes.filter (fun n => n.id ≠ p), rfl, humem,
            (List.filter_sublist s.nodes).map (fun n => n.id), ?_, ?_⟩ <;>
            simp only [handleNodeUpdate, hf, hc1, hc2, hpp, hpj,
              ne_eq, not_false_eq_true, and_self, if_true]
      | some plabel =>
        right; right
        cases hpp : old.projectedParent with
        | none =>
          refine ⟨{ u with projectedParent := some s.nextId },
            { id := s.nextId, label := plabel, x := u.x, y := u.y - 60,
              isLeaf := false }, s.nodes, rfl, rfl, humem,
            List.Sublist.refl _, ?_, ?_⟩ <;>
            simp only [handleNodeUpdate, hf, hc1, hc2, hpp, hpj,
              ne_eq, not_false_eq_true, and_self, if_true]
        | some p =>
          refine ⟨{ u with projectedParent := some s.nextId },
            { id := s.nextId, label := plabel, x := u.x, y := u.y - 60,
              isLeaf := false }, s.nodes.filter (fun n => n.id ≠ p), rfl, rfl,
            humem, (List.filter_sublist s.nodes).map (fun n => n.id), ?_, ?_⟩ <;>
            simp only [handleNodeUpdate, hf, hc1, hc2, hpp, hpj,
              ne_eq, not_false_eq_true, and_self, if_true]
    · right; left
      refine ⟨u, s.nodes, rfl, humem, List.Sublist.refl _, ?_, ?_⟩ <;>
        simp only [handleNodeUpdate, hf, hcond, if_false]

/-- C10: in every reachable state the node ids are pairwise distinct and
strictly below `nextId`; every node-creating operation draws its fresh id
from `nextId`, so ids are never reused. -/
theorem C10_node_ids_distinct_and_bounded (s : TreeState) (h : Reachable s) :
    (s.nodes.map (fun n => n.id)).Nodup ∧ ∀ n ∈ s.nodes, n.id < s.nextId := by
  induction h with
  | init => exact ⟨List.nodup_nil, by simp [initialState]⟩
  | typeSentence str h ih => exact ih
  | select i h ih => exact ih
  | delEdge eid h ih => exact ih
  | edgeUpdate e h ih => exact ih
  | link i h ih =>
    rename_i t
    rcases handleLink_frame i t with ⟨hn, hx⟩
    rw [hn, hx]
    exact ih
  | layout d h ih =>
    rename_i t
    rcases updatePositions_frame d t with ⟨hn, hx⟩
    refine ⟨hn ▸ ih.1, fun n hnn => ?_⟩
    have hmm : n.id ∈ (updatePositions d t).nodes.map (fun m => m.id) :=
      List.mem_map_of_mem _ hnn
    rw [hn] at hmm
    rcases List.mem_map.mp hmm with ⟨m, hm, hid⟩
    rw [hx, ← hid]
    exact ih.2 m hm
  | createLeaves d h ih =>
    rename_i t
    by_cases hb : isBlank t.sentence
    · simpa [initializeNodes, hb] using ih
    · have hids : ((tokenize t.sentence).enum.map (fun p =>
          ({ id := p.1 + 1, label := p.2, pos := some "",
             x := d.width / ((tokenize t.sentence).length + 1) * (p.1 + 1),
             y := d.height * 0.875, isLeaf := true,
             projectedParent := none } : TreeNodeType))).map (fun n => n.id)
          = (List.range (tokenize t.sentence).length).map (fun i => i + 1) := by
        rw [List.map_map, ← List.enum_map_fst (tokenize t.sentence), List.map_map]
        rfl
      constructor
      · simp only [initializeNodes, hb, Bool.false_eq_true, if_false,
          List.map_append, hids, List.map_cons, List.map_nil]
        rw [List.nodup_append]
        refine ⟨List.Nodup.map (fun a b hab => by omega) (List.nodup_range _),
          List.nodup_singleton _, ?_⟩
        intro a ha hb2
        rcases List.mem_map.mp ha with ⟨i, hi, rfl⟩
        rw [List.mem_range] at hi
        simp at hb2
        omega
      · intro n hn
        simp only [initializeNodes, hb, Bool.false_eq_true, if_false,
          List.mem_append] at hn ⊢
        rcases hn with hn | hn
        · have hmm : n.id ∈ (List.range (tokenize t.sentence).length).map
              (fun i => i + 1) := by
            rw [← hids]
            exact List.mem_map_of_mem _ hn
          rcases List.mem_map.mp hmm with ⟨i, hi, hid⟩
          rw [List.mem_range] at hi
          omega
        · simp only [List.mem_singleton] at hn
          rw [hn]
          simp
  | parent h ih =>
    rename_i t
    by_cases hlt : t.selected.length < 2
    · simpa [addParent, hlt] using ih
    · constructor
      · simp only [addParent, hlt, if_false, List.map_append, List.map_cons,
          List.map_nil]
        rw [List.nodup_append]
        refine ⟨ih.1, List.nodup_singleton _, ?_⟩
        intro a ha hb2
        rcases List.mem_map.mp ha with ⟨m, hm, rfl⟩
        have := ih.2 m hm
        simp at hb2
        omega
      · intro n hn
        simp only [addParent, hlt, if_false, List.mem_append] at hn ⊢
        rcases hn with hn | hn
        · have := ih.2 n hn
          omega
        · simp only [List.mem_singleton] at hn
          rw [hn]
          simp
  | nodeUpdate u h ih =>
    rename_i t
    rcases handleNodeUpdate_shape u t with heq |
      ⟨u2, nodes1, hu2, humem, hsubl, hnn, hnx⟩ |
      ⟨u2, proj, nodes1, hu2, hpid, humem, hsubl, hnn, hnx⟩
    · rw [heq]
      exact ih
    · have hult : u.id < t.nextId := by
        rcases List.mem_map.mp humem with ⟨m, hm, hid⟩
        rw [← hid]
        exact ih.2 m hm
      have hbound : ∀ a ∈ nodes1.map (fun n => n.id), a < t.nextId := by
        intro a ha
        have hmem := hsubl.subset ha
        rcases List.mem_map.mp hmem with ⟨m, hm, hid⟩
        rw [← hid]
        exact ih.2 m hm
      constructor
      · rw [hnn, ids_map_replace _ _ _ hu2]
        exact hsubl.nodup ih.1
      · intro n hn
        rw [hnn] at hn
        rcases List.mem_map.mp hn with ⟨m, hm, rfl⟩
        rw [hnx]
        by_cases hc : m.id = u.id
        · simp only [hc, if_true, hu2]
          omega
        · simp only [hc, if_false]
          exact hbound m.id (List.mem_map_of_mem _ hm)
    · have hult : u.id < t.nextId := by
        rcases List.mem_map.mp humem with ⟨m, hm, hid⟩
        rw [← hid]
        exact ih.2 m hm
      have hbound : ∀ a ∈ nodes1.map (fun n => n.id), a < t.nextId := by
        intro a ha
        have hmem := hsubl.subset ha
        rcases List.mem_map.mp hmem with ⟨m, hm, hid⟩
        rw [← hid]
        exact ih.2 m hm
      constructor
      · rw [hnn, ids_map_replace _ _ _ hu2, List.map_append]
        rw [List.nodup_append]
        refine ⟨hsubl.nodup ih.1, by simp, ?_⟩
        intro a ha hb2
        have := hbound a ha
        simp only [List.map_cons, List.map_nil, List.mem_singleton, hpid] at hb2
        omega
      · intro n hn
        rw [hnn] at hn
        rcases List.mem_map.mp hn with ⟨m, hm, rfl⟩
        rw [hnx]
        rcases List.mem_append.mp hm with hm1 | hm2
        · by_cases hc : m.id = u.id
          · simp only [hc, if_true, hu2]
            omega
          · simp only [hc, if_false]
            have := hbound m.id (List.mem_map_of_mem _ hm1)
            omega
        · simp only [List.mem_singleton] at hm2
          rw [hm2]
          have hcn : ¬ ((t.nextId : Nat) = u.id) := by omega
          simp only [hpid, hcn, if_false]
          omega

/-- C10 witness: the invariant at the concrete reachable state `exTagged`
(reached by typing "a b", creating leaves, and tagging leaf 1 with "N"). -/
theorem C10_node_ids_distinct_and_bounded_witness :
    (exTagged.nodes.map (fun n => n.id)).Nodup ∧
    ∀ n ∈ exTagged.nodes, n.id < exTagged.nextId :=
  C10_node_ids_distinct_and_bounded exTagged
    (Reachable.nodeUpdate _ (Reachable.createLeaves d0
      (Reachable.typeSentence "a b" Reachable.init)))

/-! ## C2: the auto-projection rule -/

/-- After appending a fresh projection node and applying the per-id
replacement, the nodes carrying the fresh id are exactly the projection. -/
theorem proj_label_of_shape (nextId uid : Nat) (u2 proj : TreeNodeType)
    (L : List TreeNodeType) (hL : ∀ n ∈ L, n.id < nextId)
    (hproj_id : proj.id = nextId) (hproj_ne : ¬ (proj.id = uid)) (hu2 : u2.id = uid) :
    (((L ++ [proj]).map (fun n => if n.id = uid then u2 else n)).filter
        (fun n => n.id = nextId)).map (fun n => n.label) = [proj.label] := by
  rw [List.map_append, List.filter_append, List.map_append]
  have h1 : (L.map (fun n => if n.id = uid then u2 else n)).filter
      (fun n => n.id = nextId) = [] := by
    refine List.filter_eq_nil_iff.mpr (fun x hx => ?_)
    rcases List.mem_map.mp hx with ⟨n, hn, rfl⟩
    have := hL n hn
    by_cases hc : n.id = uid <;> simp [hc, hu2] <;> omega
  have h2 : ([proj].map (fun n => if n.id = uid then u2 else n)).filter
      (fun n => n.id = nextId) = [proj] := by
    have hne2 : ¬ (nextId = uid) := fun hc => hproj_ne (hproj_id.trans hc)
    simp [hproj_id, hne2]
  rw [h1, h2]
  simp

/-- C2 (amended): for a leaf with a changed POS tag:
(a) tagging with a projecting category, when no live projection exists (the
recorded `projectedParent` matches no node id and no edge source), appends
exactly one new non-leaf node (the phrasal projection) and one new edge from
it to the leaf;
(b) retagging to a non-projecting category removes the recorded projected
node and every edge whose source is that node — the auto-created edge plus
any user-added edges out of it (edges into it survive);
(c) retagging from one projecting category to another removes the old
projected node and the edges out of it and appends one new projection node
and edge;
(d) in either projecting case exactly one node carries the new projection id
afterwards, labeled with the phrasal category (with `nextId` fresh). -/
theorem C2_projection_update (s : TreeState) (u old : TreeNodeType)
    (hfind : s.nodes.find? (fun n => n.id = u.id) = some old)
    (hleaf : u.isLeaf = true) (hpos : old.pos ≠ u.pos)
    (hfresh : ∀ n ∈ s.nodes, n.id < s.nextId) :
    (∀ plabel, projectsTo u.pos = some plabel →
      (∀ n ∈ s.nodes, old.projectedParent ≠ some n.id) →
      (∀ e ∈ s.edges, old.projectedParent ≠ some e.fromId) →
      handleNodeUpdate u s = { s with
        nodes := s.nodes.map (fun n => if n.id = u.id
            then { u with projectedParent := some s.nextId } else n)
          ++ [{ id := s.nextId, label := plabel, x := u.x, y := u.y - 60,
                isLeaf := false }],
        edges := s.edges ++
          [{ id := toString s.nextId ++ "-" ++ toString u.id,
             fromId := s.nextId, toId := u.id }],
        nextId := s.nextId + 1 }) ∧
    (∀ p, old.projectedParent = some p → projectsTo u.pos = none →
      handleNodeUpdate u s = { s with
        nodes := (s.nodes.filter (fun n => n.id ≠ p)).map
          (fun n => if n.id = u.id then u else n),
        edges := s.edges.filter (fun e => e.fromId ≠ p) }) ∧
    (∀ p plabel, old.projectedParent = some p → projectsTo u.pos = some plabel →
      handleNodeUpdate u s = { s with
        nodes := (s.nodes.filter (fun n => n.id ≠ p)).map (fun n => if n.id = u.id
            then { u with projectedParent := some s.nextId } else n)
          ++ [{ id := s.nextId, label := plabel, x := u.x, y := u.y - 60,
                isLeaf := false }],
        edges := s.edges.filter (fun e => e.fromId ≠ p) ++
          [{ id := toString s.nextId ++ "-" ++ toString u.id,
             fromId := s.nextId, toId := u.id }],
        nextId := s.nextId + 1 }) ∧
    (∀ plabel, projectsTo u.pos = some plabel →
      ((handleNodeUpdate u s).nodes.filter (fun n => n.id = s.nextId)).map
          (fun n => n.label)
        = [plabel]) := by
  have hid : old.id = u.id := by simpa using List.find?_some hfind
  have hmem : old ∈ s.nodes := List.mem_of_find?_eq_some hfind
  have hlt : u.id < s.nextId := hid ▸ hfresh old hmem
  have hnid : ¬ ((s.nextId : Nat) = u.id) := by omega
  refine ⟨fun plabel hproj hdn hde => ?_, fun p hpp hproj => ?_,
    fun p plabel hpp hproj => ?_, fun plabel hproj => ?_⟩
  · cases hpp : old.projectedParent with
    | none =>
      simp only [handleNodeUpdate, hfind, hpp, hproj, hleaf, hpos,
        ne_eq, not_false_eq_true, and_self, if_true]
      simp [hnid]
    | some p =>
      have hn1 : s.nodes.filter (fun n => n.id ≠ p) = s.nodes :=
        List.filter_eq_self.mpr (fun n hn => by
          have hq := hdn n hn
          rw [hpp] at hq
          simp only [ne_eq, decide_eq_true_eq]
          exact fun hc => hq (by rw [hc]))
      have he1 : s.edges.filter (fun e => e.fromId ≠ p) = s.edges :=
        List.filter_eq_self.mpr (fun e he => by
          have hq := hde e he
          rw [hpp] at hq
          simp only [ne_eq, decide_eq_true_eq]
          exact fun hc => hq (by rw [hc]))
      simp only [handleNodeUpdate, hfind, hpp, hproj, hleaf, hpos,
        ne_eq, not_false_eq_true, and_self, if_true, hn1, he1]
      simp [hnid]
  · simp only [handleNodeUpdate, hfind, hpp, hproj, hleaf, hpos,
      ne_eq, not_false_eq_true, and_self, if_true]
  · simp only [handleNodeUpdate, hfind, hpp, hproj, hleaf, hpos,
      ne_eq, not_false_eq_true, and_self, if_true]
    simp [hnid]
  · cases hpp : old.projectedParent with
    | none =>
      simp only [handleNodeUpdate, hfind, hpp, hproj, hleaf, hpos,
        ne_eq, not_false_eq_true, and_self, if_true]
      exact proj_label_of_shape s.nextId u.id _ _ s.nodes hfresh rfl hnid rfl
    | some p =>
      simp only [handleNodeUpdate, hfind, hpp, hproj, hleaf, hpos,
        ne_eq, not_false_eq_true, and_self, if_true]
      exact proj_label_of_shape s.nextId u.id _ _
        (s.nodes.filter (fun n => n.id ≠ p))
        (fun n hn => hfresh n (List.mem_of_mem_filter hn)) rfl hnid rfl

/-- C2 witness: in `exTagged`, retagging leaf 1 from "N" to "aux" removes
node 4 and the edges out of it; retagging from "N" to "V" leaves exactly one
node with the fresh projection id, labeled "VP". -/
theorem C2_projection_update_witness :
    (handleNodeUpdate { exLeaf1N with pos := some "aux" } exTagged
      = { exTagged with
          nodes := (exTagged.nodes.filter (fun n => n.id ≠ 4)).map
            (fun n => if n.id = 1 then { exLeaf1N with pos := some "aux" } else n),
          edges := exTagged.edges.filter (fun e => e.fromId ≠ 4) }) ∧
    ((handleNodeUpdate { exLeaf1N with pos := some "V" } exTagged).nodes.filter
        (fun n => n.id = exTagged.nextId)).map (fun n => n.label) = ["VP"] :=
  ⟨(C2_projection_update exTagged { exLeaf1N with pos := some "aux" } exLeaf1N
      (by decide) (by decide) (by decide) (by decide)).2.1 4 (by decide) (by decide),
   (C2_projection_update exTagged { exLeaf1N with pos := some "V" } exLeaf1N
      (by decide) (by decide) (by decide) (by decide)).2.2.2 "VP" (by decide)⟩

/-! ## C8 and C1: the layout pass -/

/-- The layout map never changes a node's id, label or leaf flag. -/
theorem positionNode_preserves (d : Dims) (s : TreeState) (n : TreeNodeType) :
    (positionNode d s n).id = n.id ∧ (positionNode d s n).label = n.label ∧
    (positionNode d s n).isLeaf = n.isLeaf := by
  by_cases h1 : n.isLeaf
  · simp [positionNode, h1]
  · by_cases h2 : n.label = "S" ∧ getParent s n.id = none
    · simp [positionNode, h1, h2]
    · by_cases h3 : getChildren s n.id = [] <;> simp [positionNode, h1, h2, h3]

/-- Leaf branch of `positionNode` (Editor.tsx lines 320-325). -/
theorem positionNode_leaf (d : Dims) (s : TreeState) (n : TreeNodeType)
    (h : n.isLeaf = true) :
    positionNode d s n = { n with
      x := d.width / ((s.nodes.filter (fun m => m.isLeaf)).length + 1) *
        ((s.nodes.filter (fun m => m.isLeaf)).findIdx (fun m => m.id = n.id) + 1),
      y := d.height * 0.8 } := by
  simp [positionNode, h]

/-- Internal branch of `positionNode` (Editor.tsx lines 333-336). -/
theorem positionNode_internal (d : Dims) (s : TreeState) (n : TreeNodeType)
    (h1 : n.isLeaf = false) (h2 : ¬ (n.label = "S" ∧ getParent s n.id = none))
    (h3 : getChildren s n.id ≠ []) :
    positionNode d s n = { n with
      x := (minQ ((getChildren s n.id).map (fun m => m.x)) +
            maxQ ((getChildren s n.id).map (fun m => m.x))) / 2,
      y := minQ ((getChildren s n.id).map (fun m => m.y)) - d.height * 0.1 } := by
  simp [positionNode, h1, h2, h3]

/-- Fallback branch of `positionNode` (Editor.tsx line 338): no children, not
a leaf, not the unparented root. -/
theorem positionNode_fallback (d : Dims) (s : TreeState) (n : TreeNodeType)
    (h1 : n.isLeaf = false) (h2 : ¬ (n.label = "S" ∧ getParent s n.id = none))
    (h3 : getChildren s n.id = []) :
    positionNode d s n = n := by
  simp [positionNode, h1, h2, h3]

/-- `findIdx` over a mapped list tests the composed predicate. -/
theorem findIdx_map_eq {α β : Type} (p : β → Bool) (f : α → β) (l : List α) :
    (l.map f).findIdx p = l.findIdx (fun a => p (f a)) := by
  induction l with
  | nil => rfl
  | cons a t ih => simp [List.findIdx_cons, ih]

/-- In a list whose node ids are pairwise distinct, searching for the id of
the element at position `j` finds exactly position `j`. -/
theorem findIdx_id_of_getElem (l : List TreeNodeType)
    (hl : (l.map (fun n => n.id)).Nodup) :
    ∀ (j : Nat) (m : TreeNodeType), l[j]? = some m →
      l.findIdx (fun n => n.id = m.id) = j := by
  induction l with
  | nil => intro j m hm; cases j <;> simp at hm
  | cons a t ih =>
    intro j m hm
    rw [List.map_cons, List.nodup_cons] at hl
    cases j with
    | zero =>
      simp only [List.getElem?_cons_zero, Option.some.injEq] at hm
      rw [hm, List.findIdx_cons]
      simp
    | succ k =>
      simp only [List.getElem?_cons_succ] at hm
      have hmem : m ∈ t := List.getElem?_mem hm
      have hane : ¬ (a.id = m.id) := by
        intro hc
        exact hl.1 (hc ▸ List.mem_map_of_mem (fun n => n.id) hmem)
      have hdec : (decide (a.id = m.id)) = false := by simpa using hane
      rw [List.findIdx_cons, hdec]
      simp only [cond_false]
      rw [ih hl.2 k m hm]

/-- The leaves of the mapped node list are the mapped leaves. -/
theorem filter_isLeaf_map_positionNode (d : Dims) (s : TreeState) :
    ((s.nodes.map (positionNode d s)).filter (fun k => k.isLeaf))
      = (s.nodes.filter (fun k => k.isLeaf)).map (positionNode d s) := by
  induction s.nodes with
  | nil => rfl
  | cons a t ih =>
    by_cases ha : a.isLeaf <;>
      simp [List.filter_cons, (positionNode_preserves d s a).2.2, ha, ih]

/-- C8 (amended): after the layout pass, each node at position `i`:
a leaf sits on the baseline y = 0.8·height with x = width/(L+1)·(index+1)
(index = its position among the leaves, found by id); a non-leaf node that is
not the unparented "S" root and has children is centered over the midpoint of
its children's extreme x-coordinates, at the minimum child y minus the
0.1·height gap; a non-leaf node that is not the unparented "S" root and has
no children keeps its coordinates. (The unparented childless "S" root does
NOT keep its position — see the counterexample.) Under distinct node ids the
j-th leaf gets x = width/(L+1)·(j+1), the evenly-spaced order of the claim. -/
theorem C8_layout_positions (d : Dims) (s : TreeState) (i : Nat)
    (h : i < s.nodes.length) :
    (∃ n2, (updatePositions d s).nodes[i]? = some n2 ∧
      (n2.id = (s.nodes.get ⟨i, h⟩).id ∧
       n2.label = (s.nodes.get ⟨i, h⟩).label ∧
       n2.isLeaf = (s.nodes.get ⟨i, h⟩).isLeaf) ∧
      ((s.nodes.get ⟨i, h⟩).isLeaf = true →
        n2.x = d.width / ((s.nodes.filter (fun m => m.isLeaf)).length + 1) *
          ((s.nodes.filter (fun m => m.isLeaf)).findIdx
            (fun m => m.id = (s.nodes.get ⟨i, h⟩).id) + 1) ∧
        n2.y = d.height * 0.8) ∧
      ((s.nodes.get ⟨i, h⟩).isLeaf = false →
        ¬ ((s.nodes.get ⟨i, h⟩).label = "S" ∧
            getParent s (s.nodes.get ⟨i, h⟩).id = none) →
        getChildren s (s.nodes.get ⟨i, h⟩).id ≠ [] →
        n2.x = (minQ ((getChildren s (s.nodes.get ⟨i, h⟩).id).map (fun m => m.x)) +
                maxQ ((getChildren s (s.nodes.get ⟨i, h⟩).id).map (fun m => m.x))) / 2 ∧
        n2.y = minQ ((getChildren s (s.nodes.get ⟨i, h⟩).id).map (fun m => m.y))
                - d.height * 0.1) ∧
      ((s.nodes.get ⟨i, h⟩).isLeaf = false →
        ¬ ((s.nodes.get ⟨i, h⟩).label = "S" ∧
            getParent s (s.nodes.get ⟨i, h⟩).id = none) →
        getChildren s (s.nodes.get ⟨i, h⟩).id = [] →
        n2.x = (s.nodes.get ⟨i, h⟩).x ∧ n2.y = (s.nodes.get ⟨i, h⟩).y)) ∧
    ((s.nodes.map (fun m => m.id)).Nodup → ∀ (j : Nat) (m : TreeNodeType),
      ((updatePositions d s).nodes.filter (fun k => k.isLeaf))[j]? = some m →
      m.x = d.width / ((s.nodes.filter (fun k => k.isLeaf)).length + 1) * (j + 1) ∧
      m.y = d.height * 0.8) := by
  constructor
  · refine ⟨positionNode d s (s.nodes.get ⟨i, h⟩), ?_, ?_, ?_, ?_, ?_⟩
    · show (s.nodes.map (positionNode d s))[i]? = _
      rw [List.getElem?_map, List.getElem?_eq_getElem h]
      rfl
    · exact ⟨(positionNode_preserves d s _).1, (positionNode_preserves d s _).2.1,
        (positionNode_preserves d s _).2.2⟩
    · intro hleaf
      rw [positionNode_leaf d s _ hleaf]
      exact ⟨rfl, rfl⟩
    · intro h1 h2 h3
      rw [positionNode_internal d s _ h1 h2 h3]
      exact ⟨rfl, rfl⟩
    · intro h1 h2 h3
      rw [positionNode_fallback d s _ h1 h2 h3]
      exact ⟨rfl, rfl⟩
  · intro hnd j m hm
    have hleaves : ((updatePositions d s).nodes.filter (fun k => k.isLeaf))
        = (s.nodes.filter (fun k => k.isLeaf)).map (positionNode d s) :=
      filter_isLeaf_map_positionNode d s
    rw [hleaves, List.getElem?_map] at hm
    cases hl0 : (s.nodes.filter (fun k => k.isLeaf))[j]? with
    | none => rw [hl0] at hm; cases hm
    | some l0 =>
      rw [hl0] at hm
      simp at hm
      have hmemf : l0 ∈ s.nodes.filter (fun k => k.isLeaf) := List.getElem?_mem hl0
      have hleaf : l0.isLeaf = true := by
        have := (List.mem_filter.mp hmemf).2
        simpa using this
      have hndf : ((s.nodes.filter (fun k => k.isLeaf)).map (fun n => n.id)).Nodup :=
        ((List.filter_sublist s.nodes).map (fun n => n.id)).nodup hnd
      have hidx : (s.nodes.filter (fun k => k.isLeaf)).findIdx
          (fun n => n.id = l0.id) = j :=
        findIdx_id_of_getElem _ hndf j l0 hl0
      rw [← hm, positionNode_leaf d s l0 hleaf]
      constructor
      · show d.width / ((s.nodes.filter (fun m => m.isLeaf)).length + 1) *
          ((s.nodes.filter (fun m => m.isLeaf)).findIdx (fun m => m.id = l0.id) + 1) = _
        rw [hidx]
      · rfl

/-- C8 witness: the characterization at `exTagged` (node 1 is a leaf; node 4
is an internal node with a child; distinct ids give the ordered leaf
spacing). -/
theorem C8_layout_positions_witness :
    (∃ n2, (updatePositions d0 exTagged).nodes[0]? = some n2 ∧
      (n2.id = (exTagged.nodes.get ⟨0, by decide⟩).id ∧
       n2.label = (exTagged.nodes.get ⟨0, by decide⟩).label ∧
       n2.isLeaf = (exTagged.nodes.get ⟨0, by decide⟩).isLeaf) ∧
      ((exTagged.nodes.get ⟨0, by decide⟩).isLeaf = true →
        n2.x = d0.width / ((exTagged.nodes.filter (fun m => m.isLeaf)).length + 1) *
          ((exTagged.nodes.filter (fun m => m.isLeaf)).findIdx
            (fun m => m.id = (exTagged.nodes.get ⟨0, by decide⟩).id) + 1) ∧
        n2.y = d0.height * 0.8) ∧
      ((exTagged.nodes.get ⟨0, by decide⟩).isLeaf = false →
        ¬ ((exTagged.nodes.get ⟨0, by decide⟩).label = "S" ∧
            getParent exTagged (exTagged.nodes.get ⟨0, by decide⟩).id = none) →
        getChildren exTagged (exTagged.nodes.get ⟨0, by decide⟩).id ≠ [] →
        n2.x = (minQ ((getChildren exTagged (exTagged.nodes.get ⟨0, by decide⟩).id).map (fun m => m.x)) +
                maxQ ((getChildren exTagged (exTagged.nodes.get ⟨0, by decide⟩).id).map (fun m => m.x))) / 2 ∧
        n2.y = minQ ((getChildren exTagged (exTagged.nodes.get ⟨0, by decide⟩).id).map (fun m => m.y))
                - d0.height * 0.1) ∧
      ((exTagged.nodes.get ⟨0, by decide⟩).isLeaf = false →
        ¬ ((exTagged.nodes.get ⟨0, by decide⟩).label = "S" ∧
            getParent exTagged (exTagged.nodes.get ⟨0, by decide⟩).id = none) →
        getChildren exTagged (exTagged.nodes.get ⟨0, by decide⟩).id = [] →
        n2.x = (exTagged.nodes.get ⟨0, by decide⟩).x ∧
        n2.y = (exTagged.nodes.get ⟨0, by decide⟩).y)) ∧
    ((exTagged.nodes.map (fun m => m.id)).Nodup → ∀ (j : Nat) (m : TreeNodeType),
      ((updatePositions d0 exTagged).nodes.filter (fun k => k.isLeaf))[j]? = some m →
      m.x = d0.width / ((exTagged.nodes.filter (fun k => k.isLeaf)).length + 1) * (j + 1) ∧
      m.y = d0.height * 0.8) :=
  C8_layout_positions d0 exTagged 0 (by decide)

/-- The leaf data a layout pass produces: id and coordinates of each leaf,
in list order. -/
def leafData (s : TreeState) : List (Nat × ℚ × ℚ) :=
  s.nodes.filterMap (fun n => if n.isLeaf then some (n.id, n.x, n.y) else none)

/-- The projection of a node the leaf layout depends on. -/
def idLeafProj (n : TreeNodeType) : Nat × Bool := (n.id, n.isLeaf)

/-- Leaf placement computed from the projected node list alone. -/
def leafCalc (d : Dims) (ps : List (Nat × Bool)) : List (Nat × ℚ × ℚ) :=
  ps.filterMap (fun p => if p.2 then
    some (p.1, d.width / ((ps.filter (fun q => q.2)).length + 1) *
      ((ps.filter (fun q => q.2)).findIdx (fun q => q.1 = p.1) + 1),
      d.height * 0.8)
    else none)

/-- Filtering the leaf flag commutes with projecting. -/
theorem filter_proj_comm (l : List TreeNodeType) :
    (l.filter (fun m => m.isLeaf)).map idLeafProj
      = (l.map idLeafProj).filter (fun q => q.2) := by
  induction l with
  | nil => rfl
  | cons a t ih =>
    by_cases ha : a.isLeaf <;> simp [List.filter_cons, idLeafProj, ha, ih]

/-- The leaf data of a layout pass is a function of the projected pre-pass
node list (ids and leaf flags) alone. -/
theorem leafData_updatePositions (d : Dims) (s : TreeState) :
    leafData (updatePositions d s) = leafCalc d (s.nodes.map idLeafProj) := by
  unfold leafData updatePositions leafCalc
  rw [List.filterMap_map, List.filterMap_map]
  apply List.filterMap_congr
  intro n hn
  simp only [Function.comp_apply]
  have hlen : ((s.nodes.map idLeafProj).filter (fun q => q.2)).length
      = (s.nodes.filter (fun m => m.isLeaf)).length := by
    rw [← filter_proj_comm, List.length_map]
  have hidx : ((s.nodes.map idLeafProj).filter (fun q => q.2)).findIdx
      (fun q => q.1 = n.id)
      = (s.nodes.filter (fun m => m.isLeaf)).findIdx (fun m => m.id = n.id) := by
    rw [← filter_proj_comm, findIdx_map_eq]
    rfl
  by_cases hleaf : n.isLeaf
  · rw [positionNode_leaf d s n hleaf]
    simp only [idLeafProj, hleaf, if_true]
    rw [hlen, hidx]
  · have hleaf2 : n.isLeaf = false := by simpa using hleaf
    simp only [(positionNode_preserves d s n).2.2, hleaf2, idLeafProj,
      Bool.false_eq_true, if_false]

/-- A layout pass preserves the projected node list. -/
theorem proj_updatePositions (d : Dims) (s : TreeState) :
    (updatePositions d s).nodes.map idLeafProj = s.nodes.map idLeafProj := by
  show (s.nodes.map (positionNode d s)).map idLeafProj = _
  rw [List.map_map]
  refine List.map_congr_left (fun n hn => ?_)
  show idLeafProj (positionNode d s n) = idLeafProj n
  unfold idLeafProj
  rw [(positionNode_preserves d s n).1, (positionNode_preserves d s n).2.2]

/-- C1 (amended): the layout pass is idempotent on leaves — a second run
reproduces every leaf's id and coordinates. (Internal nodes and the root are
positioned from the other nodes' pre-pass coordinates, so a second run need
not reproduce them; see the counterexample.) -/
theorem C1_layout_idempotent_on_leaves (d : Dims) (s : TreeState) :
    leafData (updatePositions d (updatePositions d s))
      = leafData (updatePositions d s) := by
  rw [leafData_updatePositions, leafData_updatePositions, proj_updatePositions]

/-! ## Counterexamples and the C3 failing input -/

/-- C1 counterexample: in `exDragTag` (leaf 1 dragged to y = 500, then
tagged "N", so node 3 "NP" is its parent via edge "3-1"), node 3 is an
internal node with a child, yet the second layout run places it at a
different y (280) than the first run did (460): each pass positions parents
from the children's pre-pass coordinates. -/
theorem C1_counterexample :
    getChildren exDragTag 3 ≠ [] ∧
    ((updatePositions d0 exDragTag).nodes.find? (fun n => n.id = 3)).map (fun n => n.y)
      = some 460 ∧
    ((updatePositions d0 (updatePositions d0 exDragTag)).nodes.find?
        (fun n => n.id = 3)).map (fun n => n.y)
      = some 280 := by
  refine ⟨by decide, by decide, by decide⟩

/-- C2 counterexample: in `exLinked2` the auto-projected node 4 has the
auto-created edge "4-1" and the user-added edge "4-2". Retagging leaf 1 to
"aux" removes node 4 and BOTH edges, not "exactly that one edge and nothing
else". -/
theorem C2_counterexample :
    exLinked2.edges =
      [{ id := "4-1", fromId := 4, toId := 1 }, { id := "4-2", fromId := 4, toId := 2 }] ∧
    exC2state.nodes.length + 1 = exLinked2.nodes.length ∧
    exC2state.edges = [] := by
  refine ⟨by decide, by decide, by decide⟩

/-- C3 failing input: after init "a b", tag leaf 1 "N" (projecting node 4),
link 3→4, and retag leaf 1 to "aux", the edge "3-4" survives while node 4 is
removed, so rendering that edge looks up a node id (4) that is absent from
the node list — the lookup the claim says never fails. The state is
reachable through the editor's own handlers (last conjunct). -/
theorem C3_retag_leaves_dangling_edge :
    exC3state.edges = [{ id := "3-4", fromId := 3, toId := 4 }] ∧
    exC3state.nodes.find? (fun n => n.id = 4) = none ∧
    (exC3state.edges.any
      (fun e => (exC3state.nodes.find? (fun n => n.id = e.toId)).isNone)) = true ∧
    Reachable exC3state := by
  refine ⟨by decide, by decide, by decide, ?_⟩
  exact Reachable.nodeUpdate _ (Reachable.link 4 (Reachable.link 3
    (Reachable.nodeUpdate _ (Reachable.createLeaves d0
      (Reachable.typeSentence "a b" Reachable.init)))))

/-- C4 counterexample: `exStale` has two selected ids ([4, 2]) but node 4
was deleted by the retag, so add-parent adds only one edge, not the claimed
two (one per selected node). -/
theorem C4_counterexample :
    exStale.selected = [4, 2] ∧
    exStale.nodes.find? (fun n => n.id = 4) = none ∧
    exStale.edges = [] ∧
    (addParent exStale).edges = [{ id := "5-2", fromId := 5, toId := 2 }] := by
  refine ⟨by decide, by decide, by decide, by decide⟩

/-- C8 counterexample: in `exInit1` the root node 2 ("S") has no children
and is not a leaf, yet the layout pass moves it from y = 50 to
y = min(TOP_Y, 350 - 40) = 40 instead of keeping its previous position:
the unparented-"S" branch runs before the "no children" fallback. -/
theorem C8_counterexample :
    exInit1.nodes.find? (fun n => n.id = 2)
      = some { id := 2, label := "S", x := 300, y := 50, isLeaf := false } ∧
    getChildren exInit1 2 = [] ∧
    ((updatePositions d0 exInit1).nodes.find? (fun n => n.id = 2)).map (fun n => n.y)
      = some 40 := by
  refine ⟨by decide, by decide, by decide⟩

/-- C9 counterexample: linking 2→1 twice produces two distinct edge records
that share the id "2-1"; deleting "one" of them removes both, so the result
is not the old collection minus that single edge. -/
theorem C9_counterexample :
    exDup.edges =
      [{ id := "2-1", fromId := 2, toId := 1 }, { id := "2-1", fromId := 2, toId := 1 }] ∧
    (deleteEdge "2-1" exDup).edges = [] := by
  refine ⟨by decide, by decide⟩

end SentenceTrees
